import Mathlib

/-!
Shallow embedding of the `ai-dev-assistant` frontend (the richer page variant,
which the spec designates as the intended design) and of the Mermaid diagram
component, together with proofs settling the frozen claims about them.

The JS code operates on strings; here strings are modeled as `List Char`
(`String.data`), which agrees with JS UTF-16 semantics on the ASCII texts the
claims are about.  Fuel-indexed recursions are used where the source scans a
string with jumps; fuel equal to the length of the text is always sufficient
because every step consumes at least one character.
-/

set_option linter.unusedVariables false
set_option linter.unnecessarySimpa false

/-- Character class for the JS whitespace relevant here (the sources only ever
meet ASCII whitespace): space, tab, line feed, carriage return. -/
def isWsChar (c : Char) : Bool := c = ' ' || c = '\t' || c = '\n' || c = '\r'

/-- ASCII lowering of one character, the effect of JS `toLowerCase` on the
ASCII range (all command strings and inputs in the claims are ASCII). -/
def lowerChar (c : Char) : Char :=
  if 65 ≤ c.toNat ∧ c.toNat ≤ 90 then Char.ofNat (c.toNat + 32) else c

/-- One global, non-overlapping, left-to-right replacement pass of the literal
pattern `pat` by `rep`: the effect of JS `String.replace` with a `/literal/g`
regex.  The fuel argument only serves termination. -/
def replFuel (pat rep : List Char) : Nat → List Char → List Char
  | 0, s => s
  | _ + 1, [] => []
  | fuel + 1, c :: rest =>
    if pat ≠ [] ∧ pat.isPrefixOf (c :: rest) then
      rep ++ replFuel pat rep fuel ((c :: rest).drop pat.length)
    else
      c :: replFuel pat rep fuel rest

/-- JS `s.replace(/pat/g, rep)` for a literal pattern `pat`. -/
def replaceAll (pat rep s : List Char) : List Char := replFuel pat rep s.length s

/-- Whether `pat` occurs as a contiguous substring of the text. -/
def hasSubstr (pat : List Char) : List Char → Bool
  | [] => pat.isEmpty
  | c :: rest => pat.isPrefixOf (c :: rest) || hasSubstr pat rest

/-- Whether the text begins with the keyword `mermaid`, case-insensitively:
the match condition of the anchored regex in the cleanup code. -/
def leadsMermaid (s : List Char) : Bool := (s.take 7).map lowerChar == "mermaid".data

/-- JS `s.replace(/^mermaid\s*/i, "")`: drop a leading case-insensitive
`mermaid` keyword together with the whitespace that follows it. -/
def stripLeadingMermaid (s : List Char) : List Char :=
  if leadsMermaid s then (s.drop 7).dropWhile isWsChar else s

/-- JS `String.trim`: drop whitespace from both ends. -/
def trimChars (s : List Char) : List Char :=
  ((s.dropWhile isWsChar).reverse.dropWhile isWsChar).reverse

/-- The four characters opening an edge-label arrow in the cleanup regex. -/
def edgeHead : List Char := " -- ".data

/-- The four characters closing an edge-label arrow in the cleanup regex. -/
def edgeArrowTail : List Char := " -->".data

/-- The lazy group of the regex arrow pattern at the current offset: the
shortest run of non-line-terminator characters followed by the closing
four-character arrow; returns the label and the text after the match. -/
def lazyLabel : List Char → Option (List Char × List Char)
  | [] => none
  | c :: rest =>
    if edgeArrowTail.isPrefixOf (c :: rest) then some ([], (c :: rest).drop 4)
    else if c = '\n' ∨ c = '\r' then none
    else
      match lazyLabel rest with
      | some (l, r) => some (c :: l, r)
      | none => none

/-- The apostrophe character. -/
def squoteChar : Char := Char.ofNat 39

/-- JS `label.replace(/"/g, "'")` inside the edge-label callback. -/
def quoteFix (l : List Char) : List Char := l.map fun c => if c = '"' then squoteChar else c

/-- Scan of JS `s.replace(/ -- (.*?) -->/g, cb)`: at each position, if the
four-character arrow opener matches and a lazily-matched label closed by the
arrow tail follows, substitute the re-quoted label and continue after the
match; otherwise keep the character and continue one position later. -/
def edgeFixFuel : Nat → List Char → List Char
  | 0, s => s
  | _ + 1, [] => []
  | fuel + 1, c :: rest =>
    if edgeHead.isPrefixOf (c :: rest) then
      match lazyLabel ((c :: rest).drop 4) with
      | some (l, r) => " -- \"".data ++ quoteFix l ++ "\" -->".data ++ edgeFixFuel fuel r
      | none => c :: edgeFixFuel fuel rest
    else c :: edgeFixFuel fuel rest

/-- The edge-label re-quoting pass of the cleanup logic. -/
def edgeFix (s : List Char) : List Char := edgeFixFuel s.length s

/-- The cleanup pipeline of `renderChart` in `Mermaid.tsx`, stage for stage in
source order: entity un-escapes, fence stripping, leading-keyword stripping,
`graph TD` normalization, semicolon stripping, trim, edge-label re-quoting. -/
def sanitizeChars (s : List Char) : List Char :=
  let s1 := replaceAll "&gt;".data ">".data s
  let s2 := replaceAll "&lt;".data "<".data s1
  let s3 := replaceAll "&quot;".data "\"".data s2
  let s4 := replaceAll "```mermaid".data [] s3
  let s5 := replaceAll "```".data [] s4
  let s6 := stripLeadingMermaid s5
  let s7 := replaceAll "graph TD".data "flowchart TD".data s6
  let s8 := replaceAll ";".data [] s7
  let s9 := trimChars s8
  edgeFix s9

/-- The diagram sanitizer, as a transform of Lean strings. -/
def sanitize (s : String) : String := String.mk (sanitizeChars s.data)

example : sanitize "```mermaid\ngraph TD;\nA --&gt; B\n```" = "flowchart TD\nA --> B" := by decide

example : sanitize "A -- f --> B" = "A -- \"f\" --> B" := by decide

example : sanitize "A -- \"f\" --> B" = "A -- \"'f'\" --> B" := by decide

example : sanitize "Mermaid   graph TD" = "flowchart TD" := by decide

/-- A replacement pass is the identity when the pattern does not occur. -/
theorem replFuel_no_occur (pat rep : List Char) (f : Nat) (s : List Char)
    (h : hasSubstr pat s = false) : replFuel pat rep f s = s := by
  induction f generalizing s with
  | zero => rfl
  | succ f ih =>
    cases s with
    | nil => rfl
    | cons c rest =>
      simp only [hasSubstr, Bool.or_eq_false_iff] at h
      rw [replFuel, if_neg, ih rest h.2]
      intro hc
      rw [h.1] at hc
      exact absurd hc.2 (by simp)

/-- `replaceAll` is the identity when the pattern does not occur. -/
theorem replaceAll_no_occur (pat rep s : List Char) (h : hasSubstr pat s = false) :
    replaceAll pat rep s = s := replFuel_no_occur pat rep s.length s h

/-- Removing all occurrences of a single character leaves no occurrence. -/
theorem replFuel_single_not_mem (p : Char) (f : Nat) (s : List Char) (hf : s.length ≤ f) :
    p ∉ replFuel [p] [] f s := by
  induction f generalizing s with
  | zero =>
    have : s = [] := List.eq_nil_of_length_eq_zero (Nat.le_zero.mp hf)
    subst this
    simp [replFuel]
  | succ f ih =>
    cases s with
    | nil => simp [replFuel]
    | cons c rest =>
      have hrest : rest.length ≤ f := by
        simpa [Nat.succ_le_succ_iff] using hf
      rw [replFuel]
      by_cases hc : c = p
      · rw [if_pos]
        · simpa using ih rest hrest
        · subst hc
          refine ⟨by simp, ?_⟩
          show ([c].isPrefixOf (c :: rest)) = true
          rw [show ([c].isPrefixOf (c :: rest)) = (c == c && List.isPrefixOf [] rest) from rfl]
          simp [List.isPrefixOf]
      · rw [if_neg]
        · intro hmem
          rcases List.mem_cons.mp hmem with h1 | h1
          · exact hc h1.symm
          · exact ih rest hrest h1
        · intro hcond
          have h2 : (p == c && List.isPrefixOf [] rest) = true := hcond.2
          simp at h2
          exact hc h2.symm

/-- Removing all semicolons leaves no semicolon. -/
theorem replaceAll_semi_not_mem (s : List Char) : ';' ∉ replaceAll [';'] [] s :=
  replFuel_single_not_mem ';' s.length s le_rfl

/-- Membership survives `dropWhile` backwards. -/
theorem mem_of_mem_dropWhileChar (q : Char → Bool) (l : List Char) (x : Char)
    (h : x ∈ l.dropWhile q) : x ∈ l := by
  induction l with
  | nil => simpa using h
  | cons c rest ih =>
    by_cases hq : q c
    · simp only [List.dropWhile_cons, hq, if_true] at h
      exact List.mem_cons_of_mem c (ih h)
    · simp only [List.dropWhile_cons, hq, if_false] at h
      exact h

/-- Every character of the trimmed text is a character of the text. -/
theorem trimChars_subset (s : List Char) (x : Char) (h : x ∈ trimChars s) : x ∈ s := by
  unfold trimChars at h
  rw [List.mem_reverse] at h
  have h1 := mem_of_mem_dropWhileChar _ _ _ h
  rw [List.mem_reverse] at h1
  exact mem_of_mem_dropWhileChar _ _ _ h1

/-- The remainder returned by `lazyLabel` is no longer than the input, and
both the label and the remainder consist of characters of the input. -/
theorem lazyLabel_spec (t : List Char) :
    ∀ l r, lazyLabel t = some (l, r) →
      r.length ≤ t.length ∧ (∀ c, c ∈ l → c ∈ t) ∧ (∀ c, c ∈ r → c ∈ t) := by
  induction t with
  | nil => intro l r h; simp [lazyLabel] at h
  | cons c rest ih =>
    intro l r h
    rw [lazyLabel] at h
    by_cases h1 : edgeArrowTail.isPrefixOf (c :: rest)
    · rw [if_pos h1] at h
      obtain ⟨rfl, rfl⟩ : [] = l ∧ (c :: rest).drop 4 = r := by
        have := Option.some.inj h
        exact ⟨congrArg Prod.fst this, congrArg Prod.snd this⟩
      refine ⟨?_, by simp, fun x hx => List.mem_of_mem_drop hx⟩
      rw [List.length_drop]
      omega
    · rw [if_neg h1] at h
      by_cases h2 : c = '\n' ∨ c = '\r'
      · rw [if_pos h2] at h; cases h
      · rw [if_neg h2] at h
        cases h3 : lazyLabel rest with
        | none => rw [h3] at h; cases h
        | some p =>
          obtain ⟨l0, r0⟩ := p
          rw [h3] at h
          obtain ⟨rfl, rfl⟩ : c :: l0 = l ∧ r0 = r := by
            have := Option.some.inj h
            exact ⟨congrArg Prod.fst this, congrArg Prod.snd this⟩
          obtain ⟨ha, hb, hc⟩ := ih l0 r0 h3
          refine ⟨Nat.le_succ_of_le ha, ?_, fun x hx => List.mem_cons_of_mem c (hc x hx)⟩
          intro x hx
          rcases List.mem_cons.mp hx with rfl | hx
          · exact List.mem_cons_self x rest
          · exact List.mem_cons_of_mem c (hb x hx)

/-- The fixed characters that the edge-label substitution can introduce. -/
def edgeExtraChars : List Char := " -- \"".data ++ "\" -->".data ++ [squoteChar]

/-- Characters of a re-quoted label are characters of the label or the
apostrophe. -/
theorem quoteFix_mem (l : List Char) (c : Char) (h : c ∈ quoteFix l) :
    c ∈ l ∨ c = squoteChar := by
  unfold quoteFix at h
  obtain ⟨x, hx, hfx⟩ := List.mem_map.mp h
  by_cases hq : x = '"'
  · right
    rw [if_pos hq] at hfx
    exact hfx.symm
  · left
    rw [if_neg hq] at hfx
    exact hfx ▸ hx

/-- The edge-label pass is the identity when the arrow opener never occurs. -/
theorem edgeFixFuel_no_arrow (f : Nat) (s : List Char)
    (h : hasSubstr edgeHead s = false) : edgeFixFuel f s = s := by
  induction f generalizing s with
  | zero => rfl
  | succ f ih =>
    cases s with
    | nil => rfl
    | cons c rest =>
      simp only [hasSubstr, Bool.or_eq_false_iff] at h
      rw [edgeFixFuel, if_neg, ih rest h.2]
      intro hc
      rw [h.1] at hc
      exact absurd hc (by simp)

/-- `edgeFix` is the identity when the arrow opener never occurs. -/
theorem edgeFix_no_arrow (s : List Char) (h : hasSubstr edgeHead s = false) :
    edgeFix s = s := edgeFixFuel_no_arrow s.length s h

/-- Every character produced by the edge-label pass is a character of the
input or one of the fixed characters of the substitution. -/
theorem edgeFixFuel_mem (f : Nat) (s : List Char) (hf : s.length ≤ f) (c : Char)
    (h : c ∈ edgeFixFuel f s) : c ∈ s ∨ c ∈ edgeExtraChars := by
  induction f generalizing s with
  | zero => exact Or.inl h
  | succ f ih =>
    cases s with
    | nil => simp [edgeFixFuel] at h
    | cons a rest =>
      have hrest : rest.length ≤ f := by
        simpa [Nat.succ_le_succ_iff] using hf
      rw [edgeFixFuel] at h
      by_cases h1 : edgeHead.isPrefixOf (a :: rest)
      · rw [if_pos h1] at h
        cases h3 : lazyLabel ((a :: rest).drop 4) with
        | none =>
          rw [h3] at h
          rcases List.mem_cons.mp h with rfl | h4
          · exact Or.inl (List.mem_cons_self c rest)
          · rcases ih rest hrest h4 with h5 | h5
            · exact Or.inl (List.mem_cons_of_mem a h5)
            · exact Or.inr h5
        | some p =>
          obtain ⟨l, r⟩ := p
          rw [h3] at h
          obtain ⟨hlen, hlab, hrem⟩ := lazyLabel_spec _ _ _ h3
          have hdroplen : ((a :: rest).drop 4).length ≤ rest.length := by
            rw [List.length_drop]
            simp
          rcases List.mem_append.mp h with h4 | h4
          · rcases List.mem_append.mp h4 with h5 | h5
            · rcases List.mem_append.mp h5 with h6 | h6
              · exact Or.inr (List.mem_append_left _ (List.mem_append_left _ h6))
              · rcases quoteFix_mem l c h6 with h7 | h7
                · exact Or.inl (List.mem_of_mem_drop (hlab c h7))
                · exact Or.inr (by simp [edgeExtraChars, h7])
            · exact Or.inr (List.mem_append_left _ (List.mem_append_right _ h5))
          · have hr : r.length ≤ f := le_trans (le_trans hlen hdroplen) hrest
            rcases ih r hr h4 with h5 | h5
            · exact Or.inl (List.mem_of_mem_drop (hrem c h5))
            · exact Or.inr h5
      · rw [if_neg h1] at h
        rcases List.mem_cons.mp h with rfl | h4
        · exact Or.inl (List.mem_cons_self c rest)
        · rcases ih rest hrest h4 with h5 | h5
          · exact Or.inl (List.mem_cons_of_mem a h5)
          · exact Or.inr h5

/-- Membership bound for `edgeFix`. -/
theorem edgeFix_mem (s : List Char) (c : Char) (h : c ∈ edgeFix s) :
    c ∈ s ∨ c ∈ edgeExtraChars := edgeFixFuel_mem s.length s le_rfl c h

/-- A sanitized text is stable when none of the tokens any pipeline stage
rewrites occurs in it: no HTML entity, no fence, no leading `mermaid`
keyword, no `graph TD`, no semicolon, surrounding whitespace already
trimmed, and no edge-label arrow opener. -/
def sanStable (y : List Char) : Bool :=
  !hasSubstr "&gt;".data y && !hasSubstr "&lt;".data y && !hasSubstr "&quot;".data y &&
  !hasSubstr "```mermaid".data y && !hasSubstr "```".data y &&
  !leadsMermaid y && !hasSubstr "graph TD".data y && !hasSubstr ";".data y &&
  (trimChars y == y) && !hasSubstr edgeHead y

/-- The whole pipeline is the identity on stable texts. -/
theorem sanitizeChars_fixed (y : List Char) (h : sanStable y = true) :
    sanitizeChars y = y := by
  unfold sanStable at h
  simp only [Bool.and_eq_true, Bool.not_eq_true', beq_iff_eq] at h
  obtain ⟨⟨⟨⟨⟨⟨⟨⟨⟨h1, h2⟩, h3⟩, h4⟩, h5⟩, h6⟩, h7⟩, h8⟩, h9⟩, h10⟩
    := h
  show edgeFix (trimChars (replaceAll ";".data []
      (replaceAll "graph TD".data "flowchart TD".data
        (stripLeadingMermaid
          (replaceAll "```".data []
            (replaceAll "```mermaid".data []
              (replaceAll "&quot;".data "\"".data
                (replaceAll "&lt;".data "<".data
                  (replaceAll "&gt;".data ">".data y))))))))) = y
  rw [replaceAll_no_occur _ _ _ h1, replaceAll_no_occur _ _ _ h2,
    replaceAll_no_occur _ _ _ h3, replaceAll_no_occur _ _ _ h4,
    replaceAll_no_occur _ _ _ h5]
  rw [show stripLeadingMermaid y = y from by simp [stripLeadingMermaid, h6]]
  rw [replaceAll_no_occur _ _ _ h7, replaceAll_no_occur _ _ _ h8, h9]
  exact edgeFix_no_arrow y h10

set_option maxHeartbeats 1600000 in
/-- C1: the sanitizer is NOT idempotent as claimed: on `A -- f --> B` the
first application quotes the edge label and the second application re-quotes
it, turning the added double quotes into single quotes and wrapping again. -/
theorem c1_sanitize_not_idempotent :
    sanitize (sanitize "A -- f --> B") ≠ sanitize "A -- f --> B" := by
  rw [show sanitize "A -- f --> B" = "A -- \"f\" --> B" from by decide]
  rw [show sanitize "A -- \"f\" --> B" = "A -- \"'f'\" --> B" from by decide]
  decide

/-- C1 (amended): `sanitize` is idempotent on every input whose sanitized
form is stable, i.e. contains none of the tokens the pipeline rewrites —
in particular no edge-label arrow opener, the pattern on which idempotence
fails in general. -/
theorem c1_sanitize_idem_on_stable (x : List Char)
    (h : sanStable (sanitizeChars x) = true) :
    sanitizeChars (sanitizeChars x) = sanitizeChars x :=
  sanitizeChars_fixed (sanitizeChars x) h

set_option maxHeartbeats 1600000 in
/-- C1 witness: a well-formed flowchart source is stable after one pass and
so is a fixed point of a second pass. -/
theorem c1_witness :
    sanStable (sanitizeChars "flowchart TD\nA --> B".data) = true ∧
    sanitizeChars (sanitizeChars "flowchart TD\nA --> B".data)
      = sanitizeChars "flowchart TD\nA --> B".data := by
  have hval : sanitizeChars "flowchart TD\nA --> B".data = "flowchart TD\nA --> B".data := by
    decide
  have hs : sanStable (sanitizeChars "flowchart TD\nA --> B".data) = true := by
    rw [hval]
    decide
  exact ⟨hs, c1_sanitize_idem_on_stable "flowchart TD\nA --> B".data hs⟩

/-- C9: the sanitization pipeline strips every semicolon — in particular
every statement-terminating semicolon — from the diagram source: no
semicolon survives in the sanitized output of any input. -/
theorem c9_semicolons_stripped (x : List Char) : ';' ∉ sanitizeChars x := by
  have hx : sanitizeChars x = edgeFix (trimChars (replaceAll ";".data []
      (replaceAll "graph TD".data "flowchart TD".data
        (stripLeadingMermaid
          (replaceAll "```".data []
            (replaceAll "```mermaid".data []
              (replaceAll "&quot;".data "\"".data
                (replaceAll "&lt;".data "<".data
                  (replaceAll "&gt;".data ">".data x))))))))) := rfl
  rw [hx]
  intro hmem
  rcases edgeFix_mem _ _ hmem with h | h
  · exact replaceAll_semi_not_mem _ (trimChars_subset _ _ h)
  · exact absurd h (by decide)

/-- Message role: the author of a chat message. -/
inductive Role where
  | user
  | ai
deriving DecidableEq

/-- A chat message, as in the page's `Message` type. -/
structure Message where
  role : Role
  content : String
  context : Option String
  timestamp : Nat
deriving DecidableEq

/-- A chat session, as in the page's `ChatSession` type. -/
structure ChatSession where
  id : String
  title : String
  messages : List Message
  repoUrl : String
deriving DecidableEq

/-- One entry of the fixed command table `COMMANDS`. -/
structure Command where
  cmd : String
  label : String
  desc : String
deriving DecidableEq

/-- The fixed, enumerated command table of the page. -/
def COMMANDS : List Command :=
  [⟨"/refactor", "✨ Refactor", "Improve code structure & quality"⟩,
   ⟨"/test", "🧪 Gen Test", "Write unit tests for code"⟩,
   ⟨"/security", "🔒 Security", "Check for vulnerabilities"⟩,
   ⟨"/explain", "🎓 Explain", "Explain code logic simply"⟩,
   ⟨"/diagram", "📊 Diagram", "Generate Mermaid flowchart"⟩]

/-- JS `s.slice(0, n)` for a non-negative bound. -/
def strTake (s : String) (n : Nat) : String := String.mk (s.data.take n)

/-- JS `s.startsWith(pre)`. -/
def strStartsWith (s pre : String) : Bool := pre.data.isPrefixOf s.data

/-- JS `s.toLowerCase()` on ASCII text, character by character. -/
def strToLower (s : String) : String := String.mk (s.data.map lowerChar)

/-- The page state relevant to the session store and chat controller.  The
`persisted` field mirrors the `chat_history` blob written by `saveSessions`
(state setter plus `localStorage.setItem`). -/
structure AppState where
  sessions : List ChatSession
  activeSessionId : Option String
  repoUrl : String
  chatInput : String
  chatLoading : Bool
  showSuggestions : Bool
  filteredCmds : List Command
  persisted : List ChatSession
deriving DecidableEq

/-- `saveSessions`: commit a whole new collection to state and storage. -/
def saveSessions (st : AppState) (newSessions : List ChatSession) : AppState :=
  { st with sessions := newSessions, persisted := newSessions }

/-- `loadSession`: make a session active and adopt its repo URL
(`session.repoUrl || ""`). -/
def loadSession (st : AppState) (s : ChatSession) : AppState :=
  { st with activeSessionId := some s.id,
            repoUrl := if s.repoUrl = "" then "" else s.repoUrl }

/-- `createNewSession`: prepend a fresh empty session to the collection held
in the surrounding render closure, save, and load it. -/
def createNewSession (st : AppState) (now : Nat) : AppState :=
  let newSession : ChatSession :=
    { id := "sess_" ++ toString now, title := "New Chat", messages := [], repoUrl := "" }
  loadSession (saveSessions st (newSession :: st.sessions)) newSession

/-- `deleteSession` (after the interactive confirmation): filter the session
out and save; if it was active, load the new head, or, when nothing remains,
call `createNewSession`.  In that last call the JS closure still reads the
render-scope `sessions` binding, which holds the pre-delete list (React state
setters do not mutate the captured binding), so the fresh session is
prepended to the pre-delete list. -/
def deleteSession (st : AppState) (sessionId : String) (now : Nat) : AppState :=
  let updated := st.sessions.filter fun s => s.id != sessionId
  let stSaved := saveSessions st updated
  if st.activeSessionId = some sessionId then
    match updated with
    | s0 :: _ => loadSession stSaved s0
    | [] => createNewSession { stSaved with sessions := st.sessions } now
  else stSaved

/-- The in-flight data of one chat turn: the session id captured at
turn-start and the collection snapshot (`updatedWithUser`) the reconciliation
maps over. -/
structure Pending where
  sessionId : String
  snapshot : List ChatSession
deriving DecidableEq

/-- The fixed user-visible error string of the chat failure path. -/
def chatErrorText : String := "❌ Error connecting to AI. Please try again."

/-- The synchronous prefix of `handleChat`, up to the backend call: ensure a
session exists, append the optimistic user message, set the first-message
title, adopt the repo URL (`repoUrl || s.repoUrl`), save, clear the input,
raise the loading flag; returns the new state and the turn's pending data. -/
def handleChatTurnStart (st : AppState) (now : Nat) : AppState × Pending :=
  let fresh : ChatSession :=
    { id := "sess_" ++ toString now, title := "New Chat", messages := [], repoUrl := st.repoUrl }
  let currentSessionId :=
    match st.activeSessionId with
    | some i => i
    | none => fresh.id
  let currentSessions :=
    match st.activeSessionId with
    | some _ => st.sessions
    | none => fresh :: st.sessions
  let userMsg : Message :=
    { role := Role.user, content := st.chatInput, context := none, timestamp := now }
  let updatedWithUser := currentSessions.map fun s =>
    if s.id = currentSessionId then
      { s with
        title := if s.messages.length = 0 then strTake st.chatInput 30 ++ "..." else s.title,
        messages := s.messages ++ [userMsg],
        repoUrl := if st.repoUrl = "" then s.repoUrl else st.repoUrl }
    else s
  (saveSessions
      { st with activeSessionId := some currentSessionId,
                chatInput := "", chatLoading := true, showSuggestions := false }
      updatedWithUser,
   { sessionId := currentSessionId, snapshot := updatedWithUser })

/-- `handleChat` entry: a turn only starts on a non-empty input. -/
def handleChat (st : AppState) (now : Nat) : Option (AppState × Pending) :=
  if st.chatInput = "" then none else some (handleChatTurnStart st now)

/-- The success continuation of `handleChat`: append the AI message to the
turn's session inside the turn's snapshot, save, drop the loading flag. -/
def reconcileChatSuccess (p : Pending) (answer : String) (ctx : Option String)
    (now : Nat) (st : AppState) : AppState :=
  let aiMsg : Message := { role := Role.ai, content := answer, context := ctx, timestamp := now }
  let finalSessions := p.snapshot.map fun s =>
    if s.id = p.sessionId then { s with messages := s.messages ++ [aiMsg] } else s
  { saveSessions st finalSessions with chatLoading := false }

/-- The failure continuation of `handleChat`: append the synthetic AI error
message to the turn's session inside the turn's snapshot, save, drop the
loading flag. -/
def reconcileChatFailure (p : Pending) (now : Nat) (st : AppState) : AppState :=
  let errorMsg : Message :=
    { role := Role.ai, content := chatErrorText, context := none, timestamp := now }
  let errorSessions := p.snapshot.map fun s =>
    if s.id = p.sessionId then { s with messages := s.messages ++ [errorMsg] } else s
  { saveSessions st errorSessions with chatLoading := false }

/-- `handleInputChange`: store the input; a leading slash activates the
prefix filter over the command table, lowercasing the input first; the
suggestion panel shows exactly when the filter is non-empty; any other input
hides the panel. -/
def handleInputChange (st : AppState) (val : String) : AppState :=
  let st1 := { st with chatInput := val }
  if strStartsWith val "/" then
    let searchTerm := strToLower val
    let found := COMMANDS.filter fun c => strStartsWith c.cmd searchTerm
    { st1 with filteredCmds := found, showSuggestions := decide (0 < found.length) }
  else { st1 with showSuggestions := false }

example :
    (handleInputChange ⟨[], none, "", "", false, false, COMMANDS, []⟩ "/sec").filteredCmds.map
      Command.cmd = ["/security"] := by decide

example :
    (handleInputChange ⟨[], none, "", "", false, false, COMMANDS, []⟩ "/SEC").filteredCmds.map
      Command.cmd = ["/security"] := by decide

example :
    (handleInputChange ⟨[], none, "", "", false, false, COMMANDS, []⟩ "/zzz").showSuggestions
      = false := by decide

/-- JS `Math.min` on the rationals that model the zoom arithmetic (every
value reached is a multiple of 1/4 well inside the exactly-representable
range of doubles, so rational arithmetic coincides with the float semantics
of the source). -/
def jsMin (a b : ℚ) : ℚ := if a ≤ b then a else b

/-- JS `Math.max`, as `jsMin`. -/
def jsMax (a b : ℚ) : ℚ := if a ≤ b then b else a

/-- `handleZoomIn`: one zoom increment, step 0.25, clamped above at 5. -/
def handleZoomIn (z : ℚ) : ℚ := jsMin (z + 1/4) 5

/-- `handleZoomOut`: one zoom decrement, step 0.25, clamped below at 0.5. -/
def handleZoomOut (z : ℚ) : ℚ := jsMax (z - 1/4) (1/2)

/-- `n` repeated zoom increments. -/
def zoomInN : Nat → ℚ → ℚ
  | 0, z => z
  | n + 1, z => handleZoomIn (zoomInN n z)

/-- `n` repeated zoom decrements. -/
def zoomOutN : Nat → ℚ → ℚ
  | 0, z => z
  | n + 1, z => handleZoomOut (zoomOutN n z)

/-- One increment never exceeds the upper clamp. -/
theorem handleZoomIn_le (z : ℚ) : handleZoomIn z ≤ 5 := by
  unfold handleZoomIn jsMin
  split
  · assumption
  · linarith

/-- One decrement never goes below the lower clamp. -/
theorem handleZoomOut_ge (z : ℚ) : 1/2 ≤ handleZoomOut z := by
  unfold handleZoomOut jsMax
  split
  · linarith
  · linarith

/-- Closed form of repeated increments from 0.5 before the clamp engages. -/
theorem zoomInN_formula (n : Nat) (hn : n ≤ 18) :
    zoomInN n (1/2) = 1/2 + n * (1/4) := by
  induction n with
  | zero => simp [zoomInN]
  | succ n ih =>
    have hn17 : (n : ℚ) ≤ 17 := by
      have : n ≤ 17 := by omega
      exact_mod_cast this
    rw [zoomInN, ih (by omega)]
    unfold handleZoomIn jsMin
    rw [if_pos (by linarith)]
    push_cast
    ring

/-- From the 18th increment on, repeated increments from 0.5 sit at the
upper clamp. -/
theorem zoomInN_ge18 (n : Nat) (hn : 18 ≤ n) : zoomInN n (1/2) = 5 := by
  induction n, hn using Nat.le_induction with
  | base =>
    rw [zoomInN_formula 18 le_rfl]
    norm_num
  | succ n hn ih =>
    rw [zoomInN, ih]
    unfold handleZoomIn jsMin
    rw [if_neg (by norm_num)]

/-- C6: each zoom step is 0.25 and clamped to [0.5, 5]: repeated increments
from 1 never exceed 5, repeated decrements from 1 never go below 0.5, and
exactly 17 increments from 0.5 reach 4.75. -/
theorem c6_zoom_clamp :
    (∀ n : Nat, zoomInN n 1 ≤ 5) ∧
    (∀ n : Nat, 1/2 ≤ zoomOutN n 1) ∧
    (∀ n : Nat, zoomInN n (1/2) = 19/4 ↔ n = 17) := by
  refine ⟨?_, ?_, ?_⟩
  · intro n
    cases n with
    | zero => norm_num [zoomInN]
    | succ n => exact handleZoomIn_le _
  · intro n
    cases n with
    | zero => norm_num [zoomOutN]
    | succ n => exact handleZoomOut_ge _
  · intro n
    constructor
    · intro h
      by_cases hn : n ≤ 18
      · rw [zoomInN_formula n hn] at h
        have hq : (n : ℚ) = 17 := by linarith
        exact_mod_cast hq
      · exfalso
        rw [zoomInN_ge18 n (by omega)] at h
        norm_num at h
    · rintro rfl
      rw [zoomInN_formula 17 (by norm_num)]
      norm_num

/-- C6 witness: the 17th increment from 0.5 is 4.75, and three increments
from 1 stay at most 5. -/
theorem c6_witness : zoomInN 17 (1/2) = 19/4 ∧ zoomInN 3 1 ≤ 5 :=
  ⟨(c6_zoom_clamp.2.2 17).mpr rfl, c6_zoom_clamp.1 3⟩

/-- The zoom and overlay state of one diagram instance. -/
structure ZoomState where
  isZoomed : Bool
  zoomLevel : ℚ
deriving DecidableEq

/-- The user interactions touching the zoom overlay: opening the thumbnail,
the three closing paths (close control, backdrop click, cancel key), the
zoom controls (only rendered while the overlay is open). -/
inductive ZoomEvent where
  | openOverlay
  | closeControl
  | backdropClick
  | escKey
  | zoomInBtn
  | zoomOutBtn
  | resetBtn
deriving DecidableEq

/-- The direct state change of each event. -/
def applyZoomEvent (st : ZoomState) : ZoomEvent → ZoomState
  | ZoomEvent.openOverlay => { st with isZoomed := true }
  | ZoomEvent.closeControl => { st with isZoomed := false }
  | ZoomEvent.backdropClick => { st with isZoomed := false }
  | ZoomEvent.escKey => { st with isZoomed := false }
  | ZoomEvent.zoomInBtn =>
    if st.isZoomed then { st with zoomLevel := handleZoomIn st.zoomLevel } else st
  | ZoomEvent.zoomOutBtn =>
    if st.isZoomed then { st with zoomLevel := handleZoomOut st.zoomLevel } else st
  | ZoomEvent.resetBtn => if st.isZoomed then { st with zoomLevel := 1 } else st

/-- The effect `if (!isZoomed) setZoomLevel(1)` that runs after every change
of `isZoomed`. -/
def zoomEffect (st : ZoomState) : ZoomState :=
  if st.isZoomed then st else { st with zoomLevel := 1 }

/-- One transition: the event followed by the reset effect. -/
def zoomStep (st : ZoomState) (e : ZoomEvent) : ZoomState := zoomEffect (applyZoomEvent st e)

/-- A run of the overlay interaction from a starting state. -/
def zoomRun (st : ZoomState) (evs : List ZoomEvent) : ZoomState := evs.foldl zoomStep st

/-- The mount state of the component: overlay closed, zoom 1. -/
def zoomInit : ZoomState := ⟨false, 1⟩

/-- Any single step that ends with the overlay closed has zoom 1. -/
theorem zoomStep_reset (st : ZoomState) (e : ZoomEvent)
    (h : (zoomStep st e).isZoomed = false) : (zoomStep st e).zoomLevel = 1 := by
  unfold zoomStep zoomEffect at h ⊢
  by_cases hz : (applyZoomEvent st e).isZoomed
  · rw [if_pos hz] at h
    exact absurd h (by simp [hz])
  · rw [if_neg hz]

/-- The closed-implies-unit-zoom invariant is preserved along any run. -/
theorem zoomRun_inv (evs : List ZoomEvent) :
    ∀ st : ZoomState, (st.isZoomed = false → st.zoomLevel = 1) →
      (zoomRun st evs).isZoomed = false → (zoomRun st evs).zoomLevel = 1 := by
  induction evs with
  | nil => intro st h; exact h
  | cons e rest ih =>
    intro st h
    have : zoomRun st (e :: rest) = zoomRun (zoomStep st e) rest := rfl
    rw [this]
    exact ih (zoomStep st e) (zoomStep_reset st e)

/-- C7: along any event sequence from the mount state, whenever the overlay
is closed — by the close control, the backdrop, or the cancel key — the zoom
level reads 1 again: every transition of `isZoomed` to false resets it. -/
theorem c7_zoom_reset (evs : List ZoomEvent)
    (h : (zoomRun zoomInit evs).isZoomed = false) :
    (zoomRun zoomInit evs).zoomLevel = 1 :=
  zoomRun_inv evs zoomInit (fun _ => rfl) h

/-- C7 witness: open, zoom in once, close with the cancel key: the overlay
is closed and the zoom reads 1. -/
theorem c7_witness :
    (zoomRun zoomInit [ZoomEvent.openOverlay, ZoomEvent.zoomInBtn, ZoomEvent.escKey]).isZoomed
      = false ∧
    (zoomRun zoomInit [ZoomEvent.openOverlay, ZoomEvent.zoomInBtn, ZoomEvent.escKey]).zoomLevel
      = 1 :=
  ⟨rfl, c7_zoom_reset _ rfl⟩

/-- Anatomy of a keyed collection update `map (fun t => if t.id = X then u t
else t)` for an id-preserving update `u`: a member with the key id is the
update of a member with that id, and a member with any other id is an
untouched member of the original collection. -/
theorem keyed_map_mem (L : List ChatSession) (X : String) (u : ChatSession → ChatSession)
    (hu : ∀ t, (u t).id = t.id) (s : ChatSession)
    (hs : s ∈ L.map fun t => if t.id = X then u t else t) :
    (s.id = X → ∃ t, t ∈ L ∧ t.id = X ∧ s = u t) ∧ (s.id ≠ X → s ∈ L) := by
  obtain ⟨t, htL, hts⟩ := List.mem_map.mp hs
  by_cases h : t.id = X
  · rw [if_pos h] at hts
    constructor
    · intro _
      exact ⟨t, htL, h, hts.symm⟩
    · intro hns
      exact absurd (by rw [← hts, hu t, h]) hns
  · rw [if_neg h] at hts
    subst hts
    exact ⟨fun hX => absurd hX h, fun _ => htL⟩

/-- C2: the reconciliation of a chat turn is keyed to the session id captured
at turn-start.  If the turn started while session `X` was active, then even
after the user loads another session `Y`, the successful reconciliation still
appends the AI reply to every session with id `X`, leaves every other session
exactly as the optimistic update left it, and produces the same collection it
would have produced had the active session never changed. -/
theorem c2_stale_response_filing (st : AppState) (now now2 : Nat) (X : String)
    (Y : ChatSession) (ans : String) (ctx : Option String)
    (hne : st.chatInput ≠ "") (hX : st.activeSessionId = some X) :
    handleChat st now = some (handleChatTurnStart st now) ∧
    (handleChatTurnStart st now).2.sessionId = X ∧
    (∀ s, s ∈ (reconcileChatSuccess (handleChatTurnStart st now).2 ans ctx now2
          (loadSession (handleChatTurnStart st now).1 Y)).sessions →
        s.id = X →
        ∃ pre, s.messages = pre
          ++ [{ role := Role.ai, content := ans, context := ctx, timestamp := now2 }]) ∧
    (∀ s, s ∈ (reconcileChatSuccess (handleChatTurnStart st now).2 ans ctx now2
          (loadSession (handleChatTurnStart st now).1 Y)).sessions →
        s.id ≠ X → s ∈ (handleChatTurnStart st now).1.sessions) ∧
    (reconcileChatSuccess (handleChatTurnStart st now).2 ans ctx now2
        (loadSession (handleChatTurnStart st now).1 Y)).sessions
      = (reconcileChatSuccess (handleChatTurnStart st now).2 ans ctx now2
          (handleChatTurnStart st now).1).sessions ∧
    (∀ s, s ∈ (reconcileChatFailure (handleChatTurnStart st now).2 now2
          (loadSession (handleChatTurnStart st now).1 Y)).sessions →
        s.id = X →
        ∃ pre, s.messages = pre
          ++ [{ role := Role.ai, content := chatErrorText, context := none, timestamp := now2 }]) ∧
    (∀ s, s ∈ (reconcileChatFailure (handleChatTurnStart st now).2 now2
          (loadSession (handleChatTurnStart st now).1 Y)).sessions →
        s.id ≠ X → s ∈ (handleChatTurnStart st now).1.sessions) := by
  obtain ⟨sess, act, repo, input, load, sugg, fcmds, pers⟩ := st
  have hX' : act = some X := hX
  subst hX'
  refine ⟨?_, rfl, ?_, ?_, rfl, ?_, ?_⟩
  · unfold handleChat
    rw [if_neg hne]
  · intro s hs hsX
    have hmem := keyed_map_mem _ X
      (fun t => { t with messages := t.messages
        ++ [{ role := Role.ai, content := ans, context := ctx, timestamp := now2 }] })
      (fun t => rfl) s hs
    obtain ⟨t, _, _, hst⟩ := hmem.1 hsX
    exact ⟨t.messages, by rw [hst]⟩
  · intro s hs hsX
    have hmem := keyed_map_mem _ X
      (fun t => { t with messages := t.messages
        ++ [{ role := Role.ai, content := ans, context := ctx, timestamp := now2 }] })
      (fun t => rfl) s hs
    exact hmem.2 hsX
  · intro s hs hsX
    have hmem := keyed_map_mem _ X
      (fun t => { t with messages := t.messages
        ++ [{ role := Role.ai, content := chatErrorText, context := none, timestamp := now2 }] })
      (fun t => rfl) s hs
    obtain ⟨t, _, _, hst⟩ := hmem.1 hsX
    exact ⟨t.messages, by rw [hst]⟩
  · intro s hs hsX
    have hmem := keyed_map_mem _ X
      (fun t => { t with messages := t.messages
        ++ [{ role := Role.ai, content := chatErrorText, context := none, timestamp := now2 }] })
      (fun t => rfl) s hs
    exact hmem.2 hsX

/-- The two-session store of the stale-filing witness scenario. -/
def c2State : AppState :=
  ⟨[⟨"X", "tX", [], ""⟩, ⟨"Y", "tY", [], ""⟩], some "X", "", "hi",
    false, false, COMMANDS, []⟩

/-- The session `X` as it reads after the witness turn's reconciliation. -/
def c2FinalSession : ChatSession :=
  ⟨"X", "hi...",
    [{ role := Role.user, content := "hi", context := none, timestamp := 1 },
     { role := Role.ai, content := "ok", context := none, timestamp := 2 }], ""⟩

/-- C2 witness: a turn started on session `X` while the input reads `hi`,
then session `Y` is loaded, then the reply `ok` arrives: it lands on `X`. -/
theorem c2_witness :
    (handleChatTurnStart c2State 1).2.sessionId = "X" ∧
    c2FinalSession ∈ (reconcileChatSuccess (handleChatTurnStart c2State 1).2 "ok" none 2
      (loadSession (handleChatTurnStart c2State 1).1 ⟨"Y", "tY", [], ""⟩)).sessions ∧
    (∃ pre, c2FinalSession.messages = pre
      ++ [{ role := Role.ai, content := "ok", context := none, timestamp := 2 }]) :=
  ⟨(c2_stale_response_filing c2State 1 2 "X" ⟨"Y", "tY", [], ""⟩ "ok" none
      (by decide) rfl).2.1,
    by decide,
    (c2_stale_response_filing c2State 1 2 "X" ⟨"Y", "tY", [], ""⟩ "ok" none
      (by decide) rfl).2.2.1 c2FinalSession (by decide) rfl⟩

/-- C4: when the backend call of a chat turn fails, the failure
reconciliation appends to the turn's session a synthetic AI message carrying
the fixed error string, right after the optimistic user message, which is
never rolled back; sessions with any other id are exactly the untouched
members of the pre-turn collection, and the final collection is persisted. -/
theorem c4_failure_reconciliation (st : AppState) (now now2 : Nat) (X : String)
    (hne : st.chatInput ≠ "") (hX : st.activeSessionId = some X) :
    (∀ s, s ∈ (reconcileChatFailure (handleChatTurnStart st now).2 now2
          (handleChatTurnStart st now).1).sessions →
        s.id = X →
        ∃ pre, s.messages = pre
          ++ [{ role := Role.user, content := st.chatInput, context := none, timestamp := now },
              { role := Role.ai, content := chatErrorText, context := none, timestamp := now2 }]) ∧
    (∀ s, s ∈ (reconcileChatFailure (handleChatTurnStart st now).2 now2
          (handleChatTurnStart st now).1).sessions →
        s.id ≠ X → s ∈ st.sessions) ∧
    (reconcileChatFailure (handleChatTurnStart st now).2 now2
        (handleChatTurnStart st now).1).persisted
      = (reconcileChatFailure (handleChatTurnStart st now).2 now2
          (handleChatTurnStart st now).1).sessions := by
  obtain ⟨sess, act, repo, input, load, sugg, fcmds, pers⟩ := st
  have hX' : act = some X := hX
  subst hX'
  refine ⟨?_, ?_, rfl⟩
  · intro s hs hsX
    have houter := keyed_map_mem _ X
      (fun t => { t with messages := t.messages
        ++ [{ role := Role.ai, content := chatErrorText, context := none, timestamp := now2 }] })
      (fun t => rfl) s hs
    obtain ⟨t, htmem, htX, hst⟩ := houter.1 hsX
    have hinner := keyed_map_mem sess X
      (fun t => { t with
        title := if t.messages.length = 0 then strTake input 30 ++ "..." else t.title,
        messages := t.messages
          ++ [{ role := Role.user, content := input, context := none, timestamp := now }],
        repoUrl := if repo = "" then t.repoUrl else repo })
      (fun t => rfl) t htmem
    obtain ⟨t0, _, _, ht0⟩ := hinner.1 htX
    refine ⟨t0.messages, ?_⟩
    rw [hst, ht0]
    simp
  · intro s hs hsX
    have houter := keyed_map_mem _ X
      (fun t => { t with messages := t.messages
        ++ [{ role := Role.ai, content := chatErrorText, context := none, timestamp := now2 }] })
      (fun t => rfl) s hs
    have hinner := keyed_map_mem sess X
      (fun t => { t with
        title := if t.messages.length = 0 then strTake input 30 ++ "..." else t.title,
        messages := t.messages
          ++ [{ role := Role.user, content := input, context := none, timestamp := now }],
        repoUrl := if repo = "" then t.repoUrl else repo })
      (fun t => rfl) s (houter.2 hsX)
    exact hinner.2 hsX

/-- The one-session store of the failure-reconciliation witness scenario. -/
def c4State : AppState :=
  ⟨[⟨"X", "tX", [], ""⟩], some "X", "", "hi", false, false, COMMANDS, []⟩

/-- The session `X` as it reads after the witness turn fails. -/
def c4FinalSession : ChatSession :=
  ⟨"X", "hi...",
    [{ role := Role.user, content := "hi", context := none, timestamp := 1 },
     { role := Role.ai, content := chatErrorText, context := none, timestamp := 2 }], ""⟩

/-- C4 witness: the failing turn on session `X` ends with the transcript
`[user message, fixed error message]` on `X`. -/
theorem c4_witness :
    c4FinalSession ∈ (reconcileChatFailure (handleChatTurnStart c4State 1).2 2
      (handleChatTurnStart c4State 1).1).sessions ∧
    (∃ pre, c4FinalSession.messages = pre
      ++ [{ role := Role.user, content := "hi", context := none, timestamp := 1 },
          { role := Role.ai, content := chatErrorText, context := none, timestamp := 2 }]) :=
  ⟨by decide,
    (c4_failure_reconciliation c4State 1 2 "X" (by decide) rfl).1 c4FinalSession
      (by decide) rfl⟩

/-- C5 (amended): sending a message while session `X` is active maps every
session of the collection to one with the same id whose title is: the first
30 characters of the input followed by `...` when the session is `X` and had
no messages yet, and the unchanged old title otherwise (later messages leave
the title alone).  In particular a 28-character first message is kept whole
before the `...` marker. -/
theorem c5_title_autoset (st : AppState) (now : Nat) (X : String)
    (hne : st.chatInput ≠ "") (hX : st.activeSessionId = some X) :
    (∀ s, s ∈ st.sessions →
      ∃ s2, s2 ∈ (handleChatTurnStart st now).1.sessions ∧ s2.id = s.id ∧
        s2.title = (if s.id = X ∧ s.messages.length = 0
          then strTake st.chatInput 30 ++ "..." else s.title)) ∧
    strTake "Explain this function please" 30 ++ "..." = "Explain this function please..." := by
  obtain ⟨sess, act, repo, input, load, sugg, fcmds, pers⟩ := st
  have hX' : act = some X := hX
  subst hX'
  refine ⟨?_, by decide⟩
  intro s hsmem
  by_cases h : s.id = X
  · refine ⟨{ s with
        title := if s.messages.length = 0 then strTake input 30 ++ "..." else s.title,
        messages := s.messages
          ++ [{ role := Role.user, content := input, context := none, timestamp := now }],
        repoUrl := if repo = "" then s.repoUrl else repo }, ?_, rfl, ?_⟩
    · exact List.mem_map.mpr ⟨s, hsmem, by rw [if_pos h]⟩
    · by_cases hm : s.messages.length = 0
      · simp [h, hm]
      · simp [h, hm]
  · refine ⟨s, ?_, rfl, ?_⟩
    · exact List.mem_map.mpr ⟨s, hsmem, by rw [if_neg h]⟩
    · simp [h]

/-- The one-session store in which the first message
`Explain this function please` is sent. -/
def c5State : AppState :=
  ⟨[⟨"s1", "", [], ""⟩], some "s1", "", "Explain this function please",
    false, false, COMMANDS, []⟩

/-- C5 counterexample: the claimed title `Explain this function pleas...`
does not appear; the message has only 28 characters, so `slice(0, 30)` keeps
it whole and the actual title is `Explain this function please...`. -/
theorem c5_counterexample :
    (handleChatTurnStart c5State 1).1.sessions.map ChatSession.title
      ≠ ["Explain this function pleas..."] := by decide

/-- C5 witness: the actual title after the first message, and the amended
rule applied to the concrete session. -/
theorem c5_witness :
    (handleChatTurnStart c5State 1).1.sessions.map ChatSession.title
      = ["Explain this function please..."] ∧
    (∃ s2, s2 ∈ (handleChatTurnStart c5State 1).1.sessions ∧
      s2.id = (⟨"s1", "", [], ""⟩ : ChatSession).id ∧
      s2.title = (if (⟨"s1", "", [], ""⟩ : ChatSession).id = "s1"
          ∧ (⟨"s1", "", [], ""⟩ : ChatSession).messages.length = 0
        then strTake c5State.chatInput 30 ++ "..."
        else (⟨"s1", "", [], ""⟩ : ChatSession).title)) := by
  refine ⟨by decide, ?_⟩
  exact (c5_title_autoset c5State 1 "s1" (by decide) rfl).1 ⟨"s1", "", [], ""⟩ (by decide)

/-- The three-session store `[A, B, C]` with `A` active. -/
def c3StateABC : AppState :=
  ⟨[⟨"A", "ta", [], ""⟩, ⟨"B", "tb", [], ""⟩, ⟨"C", "tc", [], ""⟩], some "A",
    "", "", false, false, COMMANDS, []⟩

/-- The one-session store `[A]` with `A` active. -/
def c3StateLast : AppState :=
  ⟨[⟨"A", "ta", [], ""⟩], some "A", "", "", false, false, COMMANDS, []⟩

/-- C3: deleting a session never leaves the store without an active session:
whenever the active id belongs to some session of the collection, after any
deletion the active id again belongs to a session of the collection.
Concretely, deleting active `A` from `[A, B, C]` activates the new head `B`,
and deleting the last remaining session creates and activates a fresh empty
session titled `New Chat`. -/
theorem c3_delete_active_reassignment :
    (∀ (st : AppState) (sid : String) (now : Nat),
      (∃ s, s ∈ st.sessions ∧ st.activeSessionId = some s.id) →
      ∃ s, s ∈ (deleteSession st sid now).sessions ∧
        (deleteSession st sid now).activeSessionId = some s.id) ∧
    ((deleteSession c3StateABC "A" 9).activeSessionId = some "B" ∧
      (deleteSession c3StateABC "A" 9).sessions.map ChatSession.id = ["B", "C"]) ∧
    ((deleteSession c3StateLast "A" 9).activeSessionId = some ("sess_" ++ toString 9) ∧
      ∃ s, s ∈ (deleteSession c3StateLast "A" 9).sessions ∧
        s.id = "sess_" ++ toString 9 ∧ s.messages = [] ∧ s.title = "New Chat") := by
  refine ⟨?_, ⟨by decide, by decide⟩, by decide, ?_⟩
  · rintro st sid now ⟨a, haMem, haAct⟩
    by_cases hact : st.activeSessionId = some sid
    · have hdel : deleteSession st sid now
          = (match st.sessions.filter (fun s => s.id != sid) with
            | s0 :: tl =>
              loadSession (saveSessions st (st.sessions.filter (fun s => s.id != sid))) s0
            | [] =>
              createNewSession
                { saveSessions st (st.sessions.filter (fun s => s.id != sid)) with
                  sessions := st.sessions } now) := by
        unfold deleteSession
        rw [if_pos hact]
      rw [hdel]
      cases hupd : st.sessions.filter (fun s => s.id != sid) with
      | nil =>
        exact ⟨⟨"sess_" ++ toString now, "New Chat", [], ""⟩,
          List.mem_cons_self _ _, rfl⟩
      | cons s0 tl =>
        exact ⟨s0, List.mem_cons_self s0 tl, rfl⟩
    · have hdel : deleteSession st sid now
          = saveSessions st (st.sessions.filter (fun s => s.id != sid)) := by
        unfold deleteSession
        rw [if_neg hact]
      rw [hdel]
      refine ⟨a, ?_, haAct⟩
      refine List.mem_filter.mpr ⟨haMem, ?_⟩
      have hne : a.id ≠ sid := by
        intro hcontra
        rw [haAct, hcontra] at hact
        exact hact rfl
      simpa using hne
  · refine ⟨⟨"sess_" ++ toString 9, "New Chat", [], ""⟩, ?_, rfl, rfl, rfl⟩
    decide

/-- C3 witness: the `[A, B, C]` store with `A` active satisfies the
precondition, and deleting `B` leaves an active session in the store. -/
theorem c3_witness :
    (∃ s, s ∈ c3StateABC.sessions ∧ c3StateABC.activeSessionId = some s.id) ∧
    (∃ s, s ∈ (deleteSession c3StateABC "B" 9).sessions ∧
      (deleteSession c3StateABC "B" 9).activeSessionId = some s.id) :=
  ⟨by decide, c3_delete_active_reassignment.1 c3StateABC "B" 9 (by decide)⟩

/-- The empty initial store used by the input-filter witnesses. -/
def appState0 : AppState := ⟨[], none, "", "", false, false, COMMANDS, []⟩

/-- C8: over the fixed command table, input `/sec` yields exactly the
`/security` suggestion with the panel shown; `/zzz` yields no suggestions
and hides the panel; any input not starting with `/` hides the panel. -/
theorem c8_command_filter (st : AppState) :
    ((handleInputChange st "/sec").filteredCmds.map Command.cmd = ["/security"] ∧
      (handleInputChange st "/sec").showSuggestions = true) ∧
    ((handleInputChange st "/zzz").filteredCmds = [] ∧
      (handleInputChange st "/zzz").showSuggestions = false) ∧
    (∀ val : String, strStartsWith val "/" = false →
      (handleInputChange st val).showSuggestions = false) := by
  refine ⟨⟨rfl, rfl⟩, ⟨rfl, rfl⟩, ?_⟩
  intro val h
  unfold handleInputChange
  rw [if_neg (by simp [h])]

/-- C8 witness: the two-sided behavior at concrete inputs on the empty
store. -/
theorem c8_witness :
    (handleInputChange appState0 "/sec").filteredCmds.map Command.cmd = ["/security"] ∧
    (handleInputChange appState0 "plain").showSuggestions = false :=
  ⟨(c8_command_filter appState0).1.1, (c8_command_filter appState0).2.2 "plain" (by decide)⟩

/-- ASCII uppercase letters land on their lowercase versions. -/
theorem charOfNat_add32_toNat (n : Nat) (h1 : 65 ≤ n) (h2 : n ≤ 90) :
    (Char.ofNat (n + 32)).toNat = n + 32 := by
  interval_cases n <;> decide

/-- Lowering a character twice is the same as lowering it once. -/
theorem lowerChar_idem (c : Char) : lowerChar (lowerChar c) = lowerChar c := by
  unfold lowerChar
  by_cases h : 65 ≤ c.toNat ∧ c.toNat ≤ 90
  · rw [if_pos h, if_neg]
    intro hc
    rw [charOfNat_add32_toNat c.toNat h.1 h.2] at hc
    omega
  · rw [if_neg h, if_neg h]

/-- Lowering a string twice is the same as lowering it once. -/
theorem strToLower_idem (s : String) : strToLower (strToLower s) = strToLower s := by
  show String.mk ((s.data.map lowerChar).map lowerChar) = String.mk (s.data.map lowerChar)
  rw [List.map_map]
  rw [show lowerChar ∘ lowerChar = lowerChar from funext lowerChar_idem]

/-- Lowering preserves a leading slash. -/
theorem strStartsWith_slash_toLower (val : String) (h : strStartsWith val "/" = true) :
    strStartsWith (strToLower val) "/" = true := by
  unfold strStartsWith at h ⊢
  have hd : "/".data = ['/'] := rfl
  rw [hd] at h ⊢
  cases hv : val.data with
  | nil =>
    rw [hv] at h
    exact absurd h (by decide)
  | cons c rest =>
    rw [hv] at h
    have h2 : ('/' == c && List.isPrefixOf [] rest) = true := h
    simp at h2
    have hmap : (strToLower val).data = lowerChar c :: rest.map lowerChar := by
      show val.data.map lowerChar = lowerChar c :: rest.map lowerChar
      rw [hv]
      rfl
    rw [hmap, ← h2]
    rw [show lowerChar '/' = '/' from by decide]
    show ('/' == '/' && List.isPrefixOf [] (rest.map lowerChar)) = true
    simp

/-- C10: the command filter is case-insensitive in the input: for every
input beginning with `/`, both the suggestion list and the panel visibility
computed for the input equal those computed for the lowercased input,
because the input is lowercased before the prefix match. -/
theorem c10_filter_case_insensitive (st : AppState) (val : String)
    (h : strStartsWith val "/" = true) :
    (handleInputChange st val).filteredCmds
      = (handleInputChange st (strToLower val)).filteredCmds ∧
    (handleInputChange st val).showSuggestions
      = (handleInputChange st (strToLower val)).showSuggestions := by
  have hlow := strStartsWith_slash_toLower val h
  have hidem := strToLower_idem val
  unfold handleInputChange
  rw [if_pos h, if_pos hlow, hidem]
  exact ⟨rfl, rfl⟩

/-- C10 witness: `/SEC` filters exactly like `/sec` and still finds the
`/security` command. -/
theorem c10_witness :
    strStartsWith "/SEC" "/" = true ∧
    (handleInputChange appState0 "/SEC").filteredCmds
      = (handleInputChange appState0 (strToLower "/SEC")).filteredCmds ∧
    (handleInputChange appState0 "/SEC").filteredCmds.map Command.cmd = ["/security"] :=
  ⟨by decide, (c10_filter_case_insensitive appState0 "/SEC" (by decide)).1, by decide⟩
